import Mathlib

/-!
Verification of the storage-class-memory manager in `scm.c`.

The mapped region is modelled as a byte-addressed memory `Mem : Nat → Nat`
(every cell holds a byte; writes reduce modulo 256).  Multi-byte machine
values (`int`, 4 bytes; `size_t`, 8 bytes) are stored and read in
little-endian order, matching the x86-64 target the source is written for.
`size_t` arithmetic wraps modulo 2^64 where the source performs it.
-/

/-! ## Byte-addressed memory -/

/-- Byte-addressed memory: the value of the byte at each address. -/
def Mem : Type := Nat → Nat

/-- An all-zero memory, used for concrete instantiations. -/
def emptyMem : Mem := fun _ => 0

/-- Write one byte (reduced mod 256) at address `a`. -/
def Mem.write1 (m : Mem) (a v : Nat) : Mem :=
  fun x => if x = a then v % 256 else m x

/-- Store the `n` low-order bytes of `v` at addresses `a, a+1, …, a+n-1`,
little-endian. -/
def writeLE : Mem → Nat → Nat → Nat → Mem
  | m, _, 0, _ => m
  | m, a, n + 1, v => writeLE (m.write1 a v) (a + 1) n (v / 256)

/-- Read an `n`-byte little-endian value stored at address `a`. -/
def readLE : Mem → Nat → Nat → Nat
  | _, _, 0 => 0
  | m, a, n + 1 => m a % 256 + 256 * readLE m (a + 1) n

/-- Store a list of bytes at consecutive addresses starting at `a`. -/
def writeBytes : Mem → Nat → List Nat → Mem
  | m, _, [] => m
  | m, a, b :: bs => writeBytes (m.write1 a b) (a + 1) bs

/-- Read back a NUL-terminated C string of at most `fuel` bytes. -/
def readCStr (m : Mem) (a : Nat) : Nat → List Nat
  | 0 => []
  | fuel + 1 => if m a % 256 = 0 then [] else m a % 256 :: readCStr m (a + 1) fuel

/-! ## The scm data model and operations, translated from `scm.c` -/

/-- `#define VIRT_ADDR 0x600000000000` — the fixed mapping address. -/
def VIRT_ADDR : Nat := 0x600000000000

/-- `#define INT_SIZE 2 * sizeof(int)` — the Arena Header size (two 4-byte ints). -/
def INT_SIZE : Nat := 8

/-- `#define METADATA_SIZE 2 * sizeof(size_t)` — the per-block header size. -/
def METADATA_SIZE : Nat := 16

/-- `MAP_FAILED = (void *)(-1)` on the 64-bit target. -/
def MAP_FAILED : Nat := 2 ^ 64 - 1

/-- Modulus of `size_t` arithmetic on the 64-bit target. -/
def sizeTMod : Nat := 2 ^ 64

/-- `struct scm` (file line 36).  The file descriptor is closed before
`scm_open` returns (line 155) and plays no further role, so it is omitted. -/
structure Scm where
  base : Nat
  mapped : Nat
  capacity : Nat
  utilized : Nat
deriving DecidableEq

/-- Conversion of a 4-byte value read as a signed `int` into a `size_t`
(`scm->utilized = size_info[1]`, line 151): values at or above `2^31` are
negative as `int` and sign-extend. -/
def intToSizeT (u : Nat) : Nat :=
  if u % 2 ^ 32 < 2 ^ 31 then u % 2 ^ 32 else sizeTMod - 2 ^ 32 + u % 2 ^ 32

/-- A backing file: its size (`st.st_size`) and its bytes. -/
structure File where
  size : Nat
  contents : Mem

/-- `mmap(VIRT_ADDR, capacity, …, MAP_FIXED | MAP_SHARED, fd, 0)`: the file's
bytes appear at the fixed address.  Bytes outside the mapped window cannot be
read by the program without faulting; the model returns 0 for them. -/
def mapFile (f : File) : Mem :=
  fun x => if VIRT_ADDR ≤ x ∧ x < VIRT_ADDR + f.size then f.contents (x - VIRT_ADDR) else 0

/-- `scm_open` (line 88), success path: capacity from the file size, mapping
at `VIRT_ADDR`, `base = mapped + INT_SIZE` (line 140), then the sentinel
check and (re)initialization of lines 146–152.  The OS failure paths (open,
fstat, S_ISREG, mmap) depend on the environment and are not modelled. -/
def scm_open (f : File) (truncate : Bool) : Scm × Mem :=
  let m := mapFile f
  if readLE m VIRT_ADDR 4 ≠ 1 ∨ truncate then
    (⟨VIRT_ADDR + INT_SIZE, VIRT_ADDR, f.size, 0⟩,
      writeLE (writeLE m VIRT_ADDR 4 1) (VIRT_ADDR + 4) 4 0)
  else
    (⟨VIRT_ADDR + INT_SIZE, VIRT_ADDR, f.size,
      intToSizeT (readLE m (VIRT_ADDR + 4) 4)⟩, m)

/-- `scm_close` (line 73): `msync` flushes the mapped bytes back to the
backing file; `munmap`, the descriptor close and the handle release have no
further observable effect on the store.  The persisted file is the mapped
window. -/
def scm_close (scm : Scm) (m : Mem) : File :=
  ⟨scm.capacity, fun i => m (scm.mapped + i)⟩

/-- `scm_malloc` (line 161).  Returns the updated handle, the updated memory
and the returned address (`none` = `NULL`). -/
def scm_malloc (scm : Scm) (m : Mem) (size : Nat) : Scm × Mem × Option Nat :=
  if scm.base = MAP_FAILED ∨ size = 0 then (scm, m, none)
  else if (scm.utilized + size + METADATA_SIZE) % sizeTMod > scm.capacity then
    (scm, m, none)
  else
    let blockMeta := scm.base + scm.utilized
    let m1 := writeLE m blockMeta 8 1
    let m2 := writeLE m1 (blockMeta + 8) 8 size
    let utilized' := (scm.utilized + size + METADATA_SIZE) % sizeTMod
    let m3 := writeLE m2 (scm.mapped + 4) 4 utilized'
    ({ scm with utilized := utilized' }, m3, some (blockMeta + METADATA_SIZE))

/-- `scm_strdup` (line 198) for a non-null handle and a non-null string
(modelled as its list of bytes, terminator excluded).  Mirrors the source:
header write, `strcpy`, utilization bump re-reading the stored size
(line 219), publish to the Arena Header, return of the payload address. -/
def scm_strdup (scm : Scm) (m : Mem) (s : List Nat) : Scm × Mem × Option Nat :=
  let meta := scm.base + scm.utilized
  if scm.base = MAP_FAILED then (scm, m, none)
  else
    let m1 := writeLE m meta 8 1
    let m2 := writeLE m1 (meta + 8) 8 (s.length + 1)
    let dst := meta + METADATA_SIZE
    let m3 := writeBytes m2 dst (s ++ [0])
    let readback := readLE m3 (meta + 8) 8
    let utilized' := (scm.utilized + readback + METADATA_SIZE) % sizeTMod
    let m4 := writeLE m3 (scm.mapped + 4) 4 utilized'
    ({ scm with utilized := utilized' }, m4, some dst)

/-- `scm_strdup` over a possibly-null handle and string, reflecting the order
of evaluation in the source: the initializer on line 201 reads `scm->base`
and `scm->utilized` before the null checks on line 204 run, so a null handle
dereferences null (result `none` = undefined behavior).  A null string with a
valid handle is rejected cleanly. -/
def scm_strdup_total : Option Scm → Option (List Nat) → Mem →
    Option (Scm × Mem × Option Nat)
  | none, _, _ => none
  | some scm, none, m => some (scm, m, none)
  | some scm, some s, m => some (scm_strdup scm m s)

/-- `scm_mbase` (line 274) over a possibly-null handle (`NULL` = address 0):
the base of payload space when nothing is allocated, two `size_t` words past
`base` otherwise. -/
def scm_mbase : Option Scm → Nat
  | none => 0
  | some scm => if scm.utilized ≠ 0 then scm.base + 16 else scm.base

/-- The scan loop of `scm_free` (lines 240–247), with an explicit iteration
budget so that the definition computes by structural recursion.  Each
iteration advances `current` by at least `METADATA_SIZE > 0`, so
`bound - current + 1` iterations always suffice; `free_scan` below supplies
that budget and `free_scan_eq` recovers the loop-step semantics exactly. -/
def free_scanF : Mem → Nat → Nat → Nat → Nat → Bool
  | _, _, _, _, 0 => false
  | m, bound, ptr, current, fuel + 1 =>
    if current < bound then
      if current = ptr then true
      else free_scanF m bound ptr (current + readLE m (current - 8) 8 + METADATA_SIZE) fuel
    else false

/-- The scan loop of `scm_free`: walk payload-start addresses from `current`,
stepping by the stored payload size plus the block header, until the address
matches or the end of utilized space is passed. -/
def free_scan (m : Mem) (bound ptr current : Nat) : Bool :=
  free_scanF m bound ptr current (bound - current + 1)

/-- The payload-start addresses visited by the scan of `scm_free`, with the
same iteration budget as `free_scanF`. -/
def scanAddrsF : Mem → Nat → Nat → Nat → List Nat
  | _, _, _, 0 => []
  | m, bound, current, fuel + 1 =>
    if current < bound then
      current :: scanAddrsF m bound (current + readLE m (current - 8) 8 + METADATA_SIZE) fuel
    else []

/-- The payload-start addresses visited by the scan of `scm_free`. -/
def scanAddrs (m : Mem) (bound current : Nat) : List Nat :=
  scanAddrsF m bound current (bound - current + 1)

/-- `scm_free` (line 230) for a non-null handle: scan from `scm_mbase`; if the
address is found, clear the block's in-use word (`block_metadata[0] = 0`,
line 254); otherwise return with no effect.  The handle itself is never
modified by `scm_free`, so only the memory is returned. -/
def scm_free (scm : Scm) (m : Mem) (ptr : Nat) : Mem :=
  let b := scm_mbase (some scm)
  if free_scan m (b + scm.utilized) ptr b then writeLE m (ptr - 16) 8 0 else m

/-- `scm_free` over a possibly-null handle: `scm_mbase(NULL)` returns `NULL`
(line 275), but line 240 then evaluates `scm->utilized` through the null
handle, so a null handle dereferences null (result `none` = undefined
behavior) before any other effect. -/
def scm_free_total : Option Scm → Mem → Nat → Option Mem
  | none, _, _ => none
  | some scm, m, ptr => some (scm_free scm m ptr)

/-- `scm_utilized` (line 258). -/
def scm_utilized : Option Scm → Nat
  | none => 0
  | some scm => scm.utilized

/-- `scm_capacity` (line 266). -/
def scm_capacity : Option Scm → Nat
  | none => 0
  | some scm => scm.capacity

/-! ## Derived definitions used to state the claims -/

/-- A handle as produced by a successful `scm_open`: mapping at the fixed
address, `base` one Arena Header past it, and a capacity representable as a
`size_t` (it comes from a file size). -/
def OpenState (scm : Scm) : Prop :=
  scm.mapped = VIRT_ADDR ∧ scm.base = VIRT_ADDR + INT_SIZE ∧ scm.capacity < sizeTMod

instance (scm : Scm) : Decidable (OpenState scm) := by
  unfold OpenState; infer_instance

/-- A C string payload: every byte is nonzero (no embedded terminator) and a
byte (below 256). -/
def validStr (s : List Nat) : Prop := ∀ b ∈ s, 0 < b ∧ b < 256

instance (s : List Nat) : Decidable (validStr s) := by
  unfold validStr; infer_instance

/-- Run a list of `scm_malloc` calls, collecting the returned addresses;
`none` if any call returns `NULL`. -/
def allocAll (scm : Scm) (m : Mem) : List Nat → Option (Scm × Mem × List Nat)
  | [] => some (scm, m, [])
  | s :: rest =>
    match scm_malloc scm m s with
    | (_, _, none) => none
    | (scm1, m1, some a) =>
      match allocAll scm1 m1 rest with
      | none => none
      | some (scm2, m2, addrs) => some (scm2, m2, a :: addrs)

/-- Total bytes consumed by a list of allocations (header plus payload each). -/
def chainLen : List Nat → Nat
  | [] => 0
  | s :: rest => METADATA_SIZE + s + chainLen rest

/-- Payload-start addresses of a block chain laid out from header address `b`
with the given payload sizes. -/
def payAddrs (b : Nat) : List Nat → List Nat
  | [] => []
  | s :: rest => (b + METADATA_SIZE) :: payAddrs (b + METADATA_SIZE + s) rest

/-- The stored size fields of a block chain laid out from header address `b`
match the given payload sizes. -/
def SizesOk (m : Mem) : Nat → List Nat → Prop
  | _, [] => True
  | b, s :: rest => readLE m (b + 8) 8 = s ∧ SizesOk m (b + METADATA_SIZE + s) rest

/-- The utilization persisted in the Arena Header, as `scm_open` would adopt
it: the 4-byte `int` at offset 4 of the mapping, converted to `size_t`. -/
def headerUtil (m : Mem) : Nat := intToSizeT (readLE m (VIRT_ADDR + 4) 4)

/-- Open a file (with or without reset), run a list of allocations, close,
reopen without reset; report the utilization before the close and after the
reopen.  `none` if an allocation failed. -/
def roundTrip (f : File) (truncate : Bool) (sizes : List Nat) : Option (Nat × Nat) :=
  match allocAll (scm_open f truncate).1 (scm_open f truncate).2 sizes with
  | none => none
  | some (scm1, m1, _) =>
    some (scm1.utilized,
      (scm_open (scm_close scm1 m1) false).1.utilized)

/-- A demonstration backing file: 100 zero bytes. -/
def demoF : File := ⟨100, emptyMem⟩

/-- The handle obtained by opening the demonstration file with reset. -/
def demoScm : Scm := (scm_open demoF true).1

/-- The mapped memory obtained by opening the demonstration file with reset. -/
def demoMem : Mem := (scm_open demoF true).2

/-! ## Memory lemmas -/

theorem Mem.write1_apply (m : Mem) (a v x : Nat) :
    m.write1 a v x = if x = a then v % 256 else m x := rfl

/-- Closed form of `writeLE`: inside the window the corresponding byte of `v`,
outside the old memory. -/
theorem writeLE_apply (n : Nat) : ∀ (m : Mem) (a v x : Nat),
    writeLE m a n v x = if a ≤ x ∧ x < a + n then v / 256 ^ (x - a) % 256 else m x := by
  induction n with
  | zero =>
    intro m a v x
    simp only [writeLE]
    rw [if_neg (by omega)]
  | succ n ih =>
    intro m a v x
    simp only [writeLE]
    rw [ih]
    by_cases hx : x = a
    · subst hx
      rw [if_neg (by omega), if_pos (by omega)]
      simp [Mem.write1]
    · by_cases hin : a + 1 ≤ x ∧ x < a + 1 + n
      · rw [if_pos hin, if_pos (show a ≤ x ∧ x < a + (n + 1) by omega)]
        have hxa : x - a = (x - (a + 1)) + 1 := by omega
        rw [hxa, pow_succ, Nat.mul_comm (256 ^ (x - (a + 1))) 256,
          ← Nat.div_div_eq_div_mul]
      · rw [if_neg hin, if_neg (show ¬(a ≤ x ∧ x < a + (n + 1)) by omega)]
        simp [Mem.write1, hx]

/-- Bytes outside the written window are untouched. -/
theorem writeLE_frame (m : Mem) (a n v x : Nat) (h : x < a ∨ a + n ≤ x) :
    writeLE m a n v x = m x := by
  rw [writeLE_apply]
  have : ¬(a ≤ x ∧ x < a + n) := by omega
  simp [this]

/-- `readLE` only depends on the bytes of its window. -/
theorem readLE_congr (n : Nat) : ∀ (m₁ m₂ : Mem) (a : Nat),
    (∀ i, i < n → m₁ (a + i) = m₂ (a + i)) → readLE m₁ a n = readLE m₂ a n := by
  induction n with
  | zero => intro m₁ m₂ a _; rfl
  | succ n ih =>
    intro m₁ m₂ a h
    simp only [readLE]
    have h0 : m₁ a = m₂ a := by have := h 0 (by omega); simpa using this
    rw [h0, ih m₁ m₂ (a + 1) (fun i hi => by
      have := h (i + 1) (by omega)
      simpa [Nat.add_assoc, Nat.add_comm 1 i] using this)]

/-- Reading back a just-written little-endian value yields it modulo `256^n`. -/
theorem readLE_writeLE (n : Nat) : ∀ (m : Mem) (a v : Nat),
    readLE (writeLE m a n v) a n = v % 256 ^ n := by
  induction n with
  | zero => intro m a v; simp [readLE, writeLE, Nat.mod_one]
  | succ n ih =>
    intro m a v
    simp only [readLE, writeLE]
    have hhead : writeLE (m.write1 a v) (a + 1) n (v / 256) a = v % 256 := by
      rw [writeLE_frame _ _ _ _ _ (by omega)]
      simp [Mem.write1]
    rw [hhead, ih]
    have h256 : (256 : Nat) ^ (n + 1) = 256 * 256 ^ n := by ring
    rw [h256, Nat.mod_mul]
    simp [Nat.mod_mod_of_dvd]

/-- Closed form of `writeBytes`. -/
theorem writeBytes_apply (l : List Nat) : ∀ (m : Mem) (a x : Nat),
    writeBytes m a l x =
      if a ≤ x ∧ x < a + l.length then l.getD (x - a) 0 % 256 else m x := by
  induction l with
  | nil =>
    intro m a x
    simp only [writeBytes, List.length_nil]
    rw [if_neg (by omega)]
  | cons b bs ih =>
    intro m a x
    simp only [writeBytes]
    rw [ih]
    by_cases hx : x = a
    · subst hx
      rw [if_neg (by omega), if_pos (by simp only [List.length_cons]; omega)]
      simp [Mem.write1, Nat.sub_self]
    · by_cases hin : a + 1 ≤ x ∧ x < a + 1 + bs.length
      · rw [if_pos hin, if_pos (by simp only [List.length_cons]; omega)]
        have hxa : x - a = (x - (a + 1)) + 1 := by omega
        rw [hxa]
        rfl
      · rw [if_neg hin, if_neg (by simp only [List.length_cons]; omega)]
        simp [Mem.write1, hx]

/-- Bytes outside the window of `writeBytes` are untouched. -/
theorem writeBytes_frame (m : Mem) (a : Nat) (l : List Nat) (x : Nat)
    (h : x < a ∨ a + l.length ≤ x) : writeBytes m a l x = m x := by
  rw [writeBytes_apply]
  have : ¬(a ≤ x ∧ x < a + l.length) := by omega
  simp [this]

/-- A `writeBytes` and a `writeLE` to disjoint windows commute. -/
theorem writeBytes_writeLE_comm (m : Mem) (a : Nat) (l : List Nat) (b k w : Nat)
    (h : a + l.length ≤ b ∨ b + k ≤ a) :
    writeBytes (writeLE m b k w) a l = writeLE (writeBytes m a l) b k w := by
  funext x
  simp only [writeBytes_apply, writeLE_apply]
  by_cases h1 : a ≤ x ∧ x < a + l.length
  · have h2 : ¬(b ≤ x ∧ x < b + k) := by omega
    simp [h1, h2]
  · simp [h1]

/-- Overwriting an `n`-byte window discards the previous write to it. -/
theorem writeLE_writeLE (m : Mem) (a n v w : Nat) :
    writeLE (writeLE m a n v) a n w = writeLE m a n w := by
  funext x
  simp only [writeLE_apply]
  by_cases h : a ≤ x ∧ x < a + n
  · simp [h]
  · simp [h]

theorem pow256_8 : (256 : Nat) ^ 8 = sizeTMod := by norm_num [sizeTMod]

theorem pow256_4 : (256 : Nat) ^ 4 = 2 ^ 32 := by norm_num

/-! ## Scan loop lemmas -/

/-- The iteration budget of `free_scanF` is irrelevant as long as it exceeds
`bound - current`. -/
theorem free_scanF_congr (m : Mem) (bound ptr : Nat) : ∀ (fuel fuel2 current : Nat),
    bound - current < fuel → bound - current < fuel2 →
    free_scanF m bound ptr current fuel = free_scanF m bound ptr current fuel2 := by
  intro fuel
  induction fuel with
  | zero => intro fuel2 current h _; omega
  | succ fuel ih =>
    intro fuel2 current h h2
    match fuel2, h2 with
    | fuel2 + 1, _ =>
      simp only [free_scanF]
      by_cases hc : current < bound
      · rw [if_pos hc, if_pos hc]
        by_cases he : current = ptr
        · rw [if_pos he, if_pos he]
        · rw [if_neg he, if_neg he]
          exact ih fuel2 _ (by simp only [METADATA_SIZE] at *; omega)
            (by simp only [METADATA_SIZE] at *; omega)
      · rw [if_neg hc, if_neg hc]

/-- One-step unfolding of the `scm_free` scan loop. -/
theorem free_scan_eq (m : Mem) (bound ptr current : Nat) :
    free_scan m bound ptr current =
      if current < bound then
        if current = ptr then true
        else free_scan m bound ptr (current + readLE m (current - 8) 8 + METADATA_SIZE)
      else false := by
  show free_scanF m bound ptr current (bound - current + 1) = _
  simp only [free_scanF]
  by_cases hc : current < bound
  · rw [if_pos hc, if_pos hc]
    by_cases he : current = ptr
    · rw [if_pos he, if_pos he]
    · rw [if_neg he, if_neg he]
      exact free_scanF_congr m bound ptr _ _ _
        (by simp only [METADATA_SIZE]; omega) (by omega)
  · rw [if_neg hc, if_neg hc]

/-- The iteration budget of `scanAddrsF` is irrelevant as long as it exceeds
`bound - current`. -/
theorem scanAddrsF_congr (m : Mem) (bound : Nat) : ∀ (fuel fuel2 current : Nat),
    bound - current < fuel → bound - current < fuel2 →
    scanAddrsF m bound current fuel = scanAddrsF m bound current fuel2 := by
  intro fuel
  induction fuel with
  | zero => intro fuel2 current h _; omega
  | succ fuel ih =>
    intro fuel2 current h h2
    match fuel2, h2 with
    | fuel2 + 1, _ =>
      simp only [scanAddrsF]
      by_cases hc : current < bound
      · rw [if_pos hc, if_pos hc]
        rw [ih fuel2 _ (by simp only [METADATA_SIZE] at *; omega)
          (by simp only [METADATA_SIZE] at *; omega)]
      · rw [if_neg hc, if_neg hc]

/-- One-step unfolding of the visited-address list of the scan. -/
theorem scanAddrs_eq (m : Mem) (bound current : Nat) :
    scanAddrs m bound current =
      if current < bound then
        current :: scanAddrs m bound (current + readLE m (current - 8) 8 + METADATA_SIZE)
      else [] := by
  show scanAddrsF m bound current (bound - current + 1) = _
  simp only [scanAddrsF]
  by_cases hc : current < bound
  · rw [if_pos hc, if_pos hc]
    exact congrArg (List.cons current) (scanAddrsF_congr m bound _ _ _
      (by simp only [METADATA_SIZE]; omega) (by omega))
  · rw [if_neg hc, if_neg hc]

/-- The scan succeeds exactly on the visited addresses. -/
theorem free_scan_mem_aux (m : Mem) (bound ptr : Nat) : ∀ (n current : Nat),
    bound - current ≤ n →
    (free_scan m bound ptr current = true ↔ ptr ∈ scanAddrs m bound current) := by
  intro n
  induction n with
  | zero =>
    intro current h
    have hc : ¬(current < bound) := by omega
    rw [free_scan_eq, scanAddrs_eq, if_neg hc, if_neg hc]
    simp
  | succ n ih =>
    intro current h
    by_cases hc : current < bound
    · rw [free_scan_eq, scanAddrs_eq, if_pos hc, if_pos hc]
      by_cases he : current = ptr
      · simp [he]
      · rw [if_neg he]
        rw [ih _ (by simp only [METADATA_SIZE] at *; omega)]
        simp [List.mem_cons, Ne.symm he]
    · rw [free_scan_eq, scanAddrs_eq, if_neg hc, if_neg hc]
      simp

/-- The scan succeeds exactly on the visited addresses. -/
theorem free_scan_mem (m : Mem) (bound ptr current : Nat) :
    free_scan m bound ptr current = true ↔ ptr ∈ scanAddrs m bound current :=
  free_scan_mem_aux m bound ptr bound current (by omega)

/-- Every visited address lies between the scan start and the bound. -/
theorem scanAddrs_mem_range_aux (m : Mem) (bound : Nat) : ∀ (n current x : Nat),
    bound - current ≤ n → x ∈ scanAddrs m bound current → current ≤ x ∧ x < bound := by
  intro n
  induction n with
  | zero =>
    intro current x h hx
    rw [scanAddrs_eq, if_neg (by omega)] at hx
    simp at hx
  | succ n ih =>
    intro current x h hx
    by_cases hc : current < bound
    · rw [scanAddrs_eq, if_pos hc] at hx
      rcases List.mem_cons.mp hx with hx | hx
      · omega
      · have := ih _ x (by simp only [METADATA_SIZE] at *; omega) hx
        simp only [METADATA_SIZE] at this
        omega
    · rw [scanAddrs_eq, if_neg hc] at hx
      simp at hx

/-- Every visited address lies between the scan start and the bound. -/
theorem scanAddrs_mem_range (m : Mem) (bound current x : Nat)
    (hx : x ∈ scanAddrs m bound current) : current ≤ x ∧ x < bound :=
  scanAddrs_mem_range_aux m bound bound current x (by omega) hx

/-! ## Characterizations of the operations -/

theorem OpenState_base_ne (scm : Scm) (h : OpenState scm) : scm.base ≠ MAP_FAILED := by
  rw [h.2.1]
  norm_num [VIRT_ADDR, INT_SIZE, MAP_FAILED]

/-- `scm_malloc` when both guards pass, in terms of the raw branch
conditions. -/
theorem scm_malloc_eq_succ (scm : Scm) (m : Mem) (size : Nat)
    (h1 : ¬(scm.base = MAP_FAILED ∨ size = 0))
    (h2 : ¬((scm.utilized + size + METADATA_SIZE) % sizeTMod > scm.capacity)) :
    scm_malloc scm m size =
      ({ scm with utilized := (scm.utilized + size + METADATA_SIZE) % sizeTMod },
        writeLE (writeLE (writeLE m (scm.base + scm.utilized) 8 1)
            (scm.base + scm.utilized + 8) 8 size)
          (scm.mapped + 4) 4 ((scm.utilized + size + METADATA_SIZE) % sizeTMod),
        some (scm.base + scm.utilized + METADATA_SIZE)) := by
  simp only [scm_malloc]
  rw [if_neg h1, if_neg h2]

/-- `scm_malloc` when the capacity guard fires: no effect, null result. -/
theorem scm_malloc_eq_fail (scm : Scm) (m : Mem) (size : Nat)
    (h2 : (scm.utilized + size + METADATA_SIZE) % sizeTMod > scm.capacity) :
    scm_malloc scm m size = (scm, m, none) := by
  simp only [scm_malloc]
  by_cases h1 : scm.base = MAP_FAILED ∨ size = 0
  · rw [if_pos h1]
  · rw [if_neg h1, if_pos h2]

/-- `scm_malloc` under the natural no-overflow hypotheses. -/
theorem scm_malloc_eq_of_fits (scm : Scm) (m : Mem) (size : Nat)
    (hb : scm.base ≠ MAP_FAILED) (hs : size ≠ 0)
    (hfit : scm.utilized + size + METADATA_SIZE ≤ scm.capacity)
    (hcap : scm.capacity < sizeTMod) :
    scm_malloc scm m size =
      ({ scm with utilized := scm.utilized + size + METADATA_SIZE },
        writeLE (writeLE (writeLE m (scm.base + scm.utilized) 8 1)
            (scm.base + scm.utilized + 8) 8 size)
          (scm.mapped + 4) 4 (scm.utilized + size + METADATA_SIZE),
        some (scm.base + scm.utilized + METADATA_SIZE)) := by
  have hmod : (scm.utilized + size + METADATA_SIZE) % sizeTMod
      = scm.utilized + size + METADATA_SIZE := Nat.mod_eq_of_lt (by omega)
  rw [scm_malloc_eq_succ scm m size (not_or.mpr ⟨hb, hs⟩) (by omega), hmod]

/-- `scm_strdup` on a valid handle, under a no-overflow hypothesis on the
final utilization. -/
theorem scm_strdup_eq (scm : Scm) (m : Mem) (s : List Nat)
    (hb : scm.base ≠ MAP_FAILED)
    (hlen : scm.utilized + (s.length + 1) + METADATA_SIZE < sizeTMod) :
    scm_strdup scm m s =
      ({ scm with utilized := scm.utilized + (s.length + 1) + METADATA_SIZE },
        writeLE
          (writeBytes
            (writeLE (writeLE m (scm.base + scm.utilized) 8 1)
              (scm.base + scm.utilized + 8) 8 (s.length + 1))
            (scm.base + scm.utilized + METADATA_SIZE) (s ++ [0]))
          (scm.mapped + 4) 4 (scm.utilized + (s.length + 1) + METADATA_SIZE),
        some (scm.base + scm.utilized + METADATA_SIZE)) := by
  simp only [scm_strdup]
  rw [if_neg hb]
  have hread : readLE
      (writeBytes
        (writeLE (writeLE m (scm.base + scm.utilized) 8 1)
          (scm.base + scm.utilized + 8) 8 (s.length + 1))
        (scm.base + scm.utilized + METADATA_SIZE) (s ++ [0]))
      (scm.base + scm.utilized + 8) 8 = s.length + 1 := by
    rw [readLE_congr 8 _
      (writeLE (writeLE m (scm.base + scm.utilized) 8 1)
        (scm.base + scm.utilized + 8) 8 (s.length + 1))
      (scm.base + scm.utilized + 8)
      (fun i hi => writeBytes_frame _ _ _ _
        (by simp only [METADATA_SIZE]; omega))]
    rw [readLE_writeLE, pow256_8, Nat.mod_eq_of_lt (by omega)]
  rw [hread]
  have hmod : (scm.utilized + (s.length + 1) + METADATA_SIZE) % sizeTMod
      = scm.utilized + (s.length + 1) + METADATA_SIZE := Nat.mod_eq_of_lt (by omega)
  rw [hmod]

/-- Reading back a NUL-terminated string written byte-for-byte. -/
theorem readCStr_of_bytes (s : List Nat) : ∀ (m : Mem) (a : Nat),
    validStr s →
    (∀ i, i ≤ s.length → m (a + i) % 256 = (s ++ [0]).getD i 0) →
    readCStr m a (s.length + 1) = s := by
  induction s with
  | nil =>
    intro m a _ h
    have h0 := h 0 (by omega)
    simp only [List.length_nil, List.nil_append] at h0 ⊢
    simp only [readCStr]
    rw [if_pos (by simpa using h0)]
  | cons b t ih =>
    intro m a hv h
    have h0 := h 0 (by omega)
    simp only [List.cons_append, List.getD] at h0
    have hb : m a % 256 = b := by simpa using h0
    have hbpos : 0 < b := (hv b (by simp)).1
    simp only [List.length_cons, readCStr]
    rw [if_neg (by omega), hb]
    congr 1
    exact ih m (a + 1) (fun x hx => hv x (by simp [hx]))
      (fun i hi => by
        have := h (i + 1) (by simpa using Nat.succ_le_succ hi)
        rw [show a + 1 + i = a + (i + 1) by omega]
        simpa using this)

/-! ## Claim theorems -/

/-- Claim C1: for every open store handle and every size `s > 0` such that
`utilization + s + blockHeaderSize` does not exceed capacity,
`scm_malloc` returns the payload address immediately following a newly
written block header placed at `base + utilization_before` (in-use flag 1,
stored payload size `s`), and utilization afterwards equals
`utilization_before + s + blockHeaderSize`. -/
theorem C1_malloc_success (scm : Scm) (m : Mem) (s : Nat)
    (hopen : OpenState scm) (hs : 0 < s)
    (hfit : scm.utilized + s + METADATA_SIZE ≤ scm.capacity) :
    (scm_malloc scm m s).2.2 = some (scm.base + scm.utilized + METADATA_SIZE) ∧
    (scm_malloc scm m s).1.utilized = scm.utilized + s + METADATA_SIZE ∧
    (scm_malloc scm m s).1.base = scm.base ∧
    (scm_malloc scm m s).1.capacity = scm.capacity ∧
    readLE (scm_malloc scm m s).2.1 (scm.base + scm.utilized) 8 = 1 ∧
    readLE (scm_malloc scm m s).2.1 (scm.base + scm.utilized + 8) 8 = s := by
  obtain ⟨hm, hbase, hcap⟩ := hopen
  have hI : INT_SIZE = 8 := rfl
  have hMS : METADATA_SIZE = 16 := rfl
  have heq := scm_malloc_eq_of_fits scm m s (OpenState_base_ne scm ⟨hm, hbase, hcap⟩)
    (by omega) hfit hcap
  rw [heq]
  refine ⟨rfl, rfl, rfl, rfl, ?_, ?_⟩
  · rw [readLE_congr 8 _
      (writeLE (writeLE m (scm.base + scm.utilized) 8 1)
        (scm.base + scm.utilized + 8) 8 s) (scm.base + scm.utilized)
      (fun i hi => writeLE_frame _ _ _ _ _ (by omega))]
    rw [readLE_congr 8 _ (writeLE m (scm.base + scm.utilized) 8 1)
      (scm.base + scm.utilized)
      (fun i hi => writeLE_frame _ _ _ _ _ (by omega))]
    rw [readLE_writeLE, pow256_8]
    norm_num [sizeTMod]
  · rw [readLE_congr 8 _
      (writeLE (writeLE m (scm.base + scm.utilized) 8 1)
        (scm.base + scm.utilized + 8) 8 s) (scm.base + scm.utilized + 8)
      (fun i hi => writeLE_frame _ _ _ _ _ (by omega))]
    rw [readLE_writeLE, pow256_8, Nat.mod_eq_of_lt (by omega)]

/-- Claim C1, witness: a fresh 100-byte store accepts a 5-byte allocation. -/
theorem C1_malloc_success_witness :
    (scm_malloc demoScm demoMem 5).2.2
      = some (demoScm.base + demoScm.utilized + METADATA_SIZE) ∧
    (scm_malloc demoScm demoMem 5).1.utilized
      = demoScm.utilized + 5 + METADATA_SIZE ∧
    (scm_malloc demoScm demoMem 5).1.base = demoScm.base ∧
    (scm_malloc demoScm demoMem 5).1.capacity = demoScm.capacity ∧
    readLE (scm_malloc demoScm demoMem 5).2.1 (demoScm.base + demoScm.utilized) 8 = 1 ∧
    readLE (scm_malloc demoScm demoMem 5).2.1 (demoScm.base + demoScm.utilized + 8) 8 = 5 :=
  C1_malloc_success demoScm demoMem 5 (by decide) (by decide) (by decide)

/-- Claim C8: the source intends `scm_strdup` to reject a null handle or a
null string synchronously, and a null string is indeed rejected cleanly; but
the initializer on line 201 reads `scm->base`/`scm->utilized` before the null
check on line 204 runs, so a null handle is dereferenced (undefined behavior)
instead of producing the clean `InvalidArgument` result the claim states. -/
theorem C8_strdup_null_check_order :
    scm_strdup_total none (some [97]) emptyMem = none ∧
    scm_strdup_total (some demoScm) none demoMem = some (demoScm, demoMem, none) :=
  ⟨rfl, rfl⟩

/-- Claim C10: refuted by the code.  The capacity guard of `scm_malloc`
(line 172) ignores the Arena Header's `INT_SIZE` bytes, so on a fresh
24-byte store an 8-byte allocation is accepted: utilization becomes 24,
`arenaHeaderSize + utilization = 32 > 24 = capacity`, and the returned
payload `[VIRT_ADDR+24, VIRT_ADDR+32)` lies entirely outside the mapped
region `[VIRT_ADDR, VIRT_ADDR+24)`. -/
theorem C10_malloc_overruns_region :
    (scm_malloc (scm_open ⟨24, emptyMem⟩ true).1 (scm_open ⟨24, emptyMem⟩ true).2 8).2.2
      = some (VIRT_ADDR + INT_SIZE + METADATA_SIZE) ∧
    (scm_malloc (scm_open ⟨24, emptyMem⟩ true).1 (scm_open ⟨24, emptyMem⟩ true).2 8).1.utilized
      = 24 ∧
    INT_SIZE + 24 > scm_capacity (some (scm_open ⟨24, emptyMem⟩ true).1) ∧
    VIRT_ADDR + INT_SIZE + METADATA_SIZE + 8 > VIRT_ADDR + 24 := by
  refine ⟨by decide, by decide, by decide, by decide⟩

/-- Claim C9: `scm_mbase` returns the base of payload space on an empty
store and `base + 16` (two header words) once utilization is non-zero; that
address is exactly the payload address returned by the first allocation on
an empty store, and is by definition the chain start used by `scm_free`. -/
theorem C9_mbase (scm : Scm) (hopen : OpenState scm) :
    (scm.utilized = 0 → scm_mbase (some scm) = scm.base) ∧
    (scm.utilized ≠ 0 → scm_mbase (some scm) = scm.base + 16) ∧
    (∀ (m : Mem) (s : Nat), scm.utilized = 0 → 0 < s →
      s + METADATA_SIZE ≤ scm.capacity →
      (scm_malloc scm m s).2.2 = some (scm.base + 16) ∧
      scm_mbase (some (scm_malloc scm m s).1) = scm.base + 16) ∧
    (∀ (m : Mem) (ptr : Nat), scm_free scm m ptr =
      if free_scan m (scm_mbase (some scm) + scm.utilized) ptr (scm_mbase (some scm))
      then writeLE m (ptr - 16) 8 0 else m) := by
  obtain ⟨hm, hbase, hcap⟩ := hopen
  have hMS : METADATA_SIZE = 16 := rfl
  refine ⟨fun hu => by simp [scm_mbase, hu], fun hu => by simp [scm_mbase, hu],
    ?_, fun m ptr => rfl⟩
  intro m s hu hs hfit
  have heq := scm_malloc_eq_of_fits scm m s (OpenState_base_ne scm ⟨hm, hbase, hcap⟩)
    (by omega) (by omega) hcap
  rw [heq]
  constructor
  · simp only [hu]
    rw [show scm.base + 0 + METADATA_SIZE = scm.base + 16 by omega]
  · simp only [scm_mbase]
    rw [if_pos (by simp only [hMS]; omega)]

/-- Claim C9, witness: instantiated on a fresh 100-byte store. -/
theorem C9_mbase_witness :
    (demoScm.utilized = 0 → scm_mbase (some demoScm) = demoScm.base) ∧
    (demoScm.utilized ≠ 0 → scm_mbase (some demoScm) = demoScm.base + 16) ∧
    (∀ (m : Mem) (s : Nat), demoScm.utilized = 0 → 0 < s →
      s + METADATA_SIZE ≤ demoScm.capacity →
      (scm_malloc demoScm m s).2.2 = some (demoScm.base + 16) ∧
      scm_mbase (some (scm_malloc demoScm m s).1) = demoScm.base + 16) ∧
    (∀ (m : Mem) (ptr : Nat), scm_free demoScm m ptr =
      if free_scan m (scm_mbase (some demoScm) + demoScm.utilized) ptr
          (scm_mbase (some demoScm))
      then writeLE m (ptr - 16) 8 0 else m) :=
  C9_mbase demoScm (by decide)

/-- `scm_malloc` when the argument guard fires. -/
theorem scm_malloc_eq_fail1 (scm : Scm) (m : Mem) (size : Nat)
    (h1 : scm.base = MAP_FAILED ∨ size = 0) :
    scm_malloc scm m size = (scm, m, none) := by
  simp only [scm_malloc]
  rw [if_pos h1]

/-- `(scm_open f true).1` in closed form: reset always reinitializes. -/
theorem scm_open_true_fst (f : File) :
    (scm_open f true).1 = ⟨VIRT_ADDR + INT_SIZE, VIRT_ADDR, f.size, 0⟩ := by
  simp only [scm_open]
  rw [if_pos (Or.inr trivial)]

/-- `(scm_open f true).2` in closed form. -/
theorem scm_open_true_snd (f : File) :
    (scm_open f true).2 =
      writeLE (writeLE (mapFile f) VIRT_ADDR 4 1) (VIRT_ADDR + 4) 4 0 := by
  simp only [scm_open]
  rw [if_pos (Or.inr trivial)]

/-- A run of allocations that fits the capacity: every call succeeds, the
returned addresses are the chain's payload starts, the chain's size fields
are in memory, and no byte below the chain start other than the published
Arena Header word is touched. -/
theorem allocAll_fits : ∀ (sizes : List Nat) (scm : Scm) (m : Mem),
    OpenState scm → (∀ t ∈ sizes, 0 < t) →
    scm.utilized + chainLen sizes ≤ scm.capacity →
    ∃ m1, allocAll scm m sizes =
        some ({ scm with utilized := scm.utilized + chainLen sizes }, m1,
          payAddrs (scm.base + scm.utilized) sizes) ∧
      SizesOk m1 (scm.base + scm.utilized) sizes ∧
      (∀ x, x < scm.base + scm.utilized →
        (x < scm.mapped + 4 ∨ scm.mapped + 8 ≤ x) → m1 x = m x) := by
  intro sizes
  induction sizes with
  | nil =>
    intro scm m hopen hpos hcap
    refine ⟨m, ?_, trivial, fun x _ _ => rfl⟩
    simp [allocAll, chainLen, payAddrs]
  | cons s rest ih =>
    intro scm m hopen hpos hcap
    obtain ⟨hm, hbase, hcapW⟩ := hopen
    have hI : INT_SIZE = 8 := rfl
    have hMS : METADATA_SIZE = 16 := rfl
    have hchain : chainLen (s :: rest) = METADATA_SIZE + s + chainLen rest := rfl
    rw [hchain] at hcap
    have hs : 0 < s := hpos s (by simp)
    have heq := scm_malloc_eq_of_fits scm m s
      (OpenState_base_ne scm ⟨hm, hbase, hcapW⟩) (by omega) (by omega) hcapW
    have hopen1 : OpenState { scm with utilized := scm.utilized + s + METADATA_SIZE } :=
      ⟨hm, hbase, hcapW⟩
    obtain ⟨m2, hall, hsz, hframe⟩ := ih
      { scm with utilized := scm.utilized + s + METADATA_SIZE }
      (writeLE (writeLE (writeLE m (scm.base + scm.utilized) 8 1)
          (scm.base + scm.utilized + 8) 8 s)
        (scm.mapped + 4) 4 (scm.utilized + s + METADATA_SIZE))
      hopen1 (fun t ht => hpos t (by simp [ht])) (by simp; omega)
    refine ⟨m2, ?_, ?_, ?_⟩
    · simp only [allocAll, heq, hall]
      have h1 : ({ scm with utilized := scm.utilized + s + METADATA_SIZE } : Scm).utilized
          + chainLen rest = scm.utilized + chainLen (s :: rest) := by
        simp [hchain]; omega
      have h2 : ({ scm with utilized := scm.utilized + s + METADATA_SIZE } : Scm).base
          + ({ scm with utilized := scm.utilized + s + METADATA_SIZE } : Scm).utilized
          = scm.base + scm.utilized + METADATA_SIZE + s := by
        simp; omega
      rw [h1, h2]
      rfl
    · constructor
      · have hagree : ∀ i, i < 8 →
            m2 (scm.base + scm.utilized + 8 + i) =
            writeLE (writeLE (writeLE m (scm.base + scm.utilized) 8 1)
                (scm.base + scm.utilized + 8) 8 s)
              (scm.mapped + 4) 4 (scm.utilized + s + METADATA_SIZE)
              (scm.base + scm.utilized + 8 + i) := by
          intro i hi
          apply hframe
          · simp; omega
          · right
            show scm.mapped + 8 ≤ scm.base + scm.utilized + 8 + i
            omega
        rw [readLE_congr 8 _ _ _ hagree]
        rw [readLE_congr 8 _
          (writeLE (writeLE m (scm.base + scm.utilized) 8 1)
            (scm.base + scm.utilized + 8) 8 s) (scm.base + scm.utilized + 8)
          (fun i hi => writeLE_frame _ _ _ _ _ (by omega))]
        rw [readLE_writeLE, pow256_8, Nat.mod_eq_of_lt (by omega)]
      · have h2 : ({ scm with utilized := scm.utilized + s + METADATA_SIZE } : Scm).base
            + ({ scm with utilized := scm.utilized + s + METADATA_SIZE } : Scm).utilized
            = scm.base + scm.utilized + METADATA_SIZE + s := by
          simp; omega
        rw [h2] at hsz
        exact hsz
    · intro x hx hout
      have hx1 : m2 x =
          writeLE (writeLE (writeLE m (scm.base + scm.utilized) 8 1)
              (scm.base + scm.utilized + 8) 8 s)
            (scm.mapped + 4) 4 (scm.utilized + s + METADATA_SIZE) x := by
        apply hframe
        · simp; omega
        · exact hout
      rw [hx1, writeLE_frame _ _ _ _ _ (by omega),
        writeLE_frame _ _ _ _ _ (by omega), writeLE_frame _ _ _ _ _ (by omega)]

/-- Claim C3 (amended): for an open handle with `s ≥ 1` and no `size_t`
overflow in `utilized + s + blockHeaderSize`, `scm_malloc` fails with a null
result and an unchanged store exactly when the remaining capacity is below
`s + blockHeaderSize`; and from a fresh store of capacity `C`, allocations
whose sizes sum to exactly `C - arenaHeaderSize - n·blockHeaderSize` all
succeed, after which any further allocation of size `t ≥ 1` (again without
overflow) fails.  (The original claim, without the overflow proviso, is
refuted by `C3_capacity_check_counterexample`.) -/
theorem C3_capacity_check (scm : Scm) (m : Mem) (s : Nat)
    (hopen : OpenState scm) (hs : 0 < s) (hub : scm.utilized ≤ scm.capacity)
    (hnof : scm.utilized + s + METADATA_SIZE < sizeTMod) :
    ((scm_malloc scm m s = (scm, m, none)) ↔
      scm.capacity - scm.utilized < s + METADATA_SIZE) ∧
    (∀ (f : File) (sizes : List Nat), (∀ t ∈ sizes, 0 < t) →
      INT_SIZE ≤ f.size → f.size < sizeTMod →
      chainLen sizes = f.size - INT_SIZE →
      ∃ scm1 m1, allocAll (scm_open f true).1 (scm_open f true).2 sizes
          = some (scm1, m1, payAddrs (scm_open f true).1.base sizes) ∧
        scm1.utilized = f.size - INT_SIZE ∧
        (∀ t, 0 < t → scm1.utilized + t + METADATA_SIZE < sizeTMod →
          scm_malloc scm1 m1 t = (scm1, m1, none))) := by
  have hmod : (scm.utilized + s + METADATA_SIZE) % sizeTMod
      = scm.utilized + s + METADATA_SIZE := Nat.mod_eq_of_lt hnof
  constructor
  · constructor
    · intro h
      by_contra hlt
      have hfit : scm.utilized + s + METADATA_SIZE ≤ scm.capacity := by omega
      rw [scm_malloc_eq_of_fits scm m s (OpenState_base_ne scm hopen)
        (by omega) hfit hopen.2.2] at h
      have := congrArg (fun t : Scm × Mem × Option Nat => t.2.2) h
      simp at this
    · intro h
      exact scm_malloc_eq_fail scm m s (by omega)
  · intro f sizes hpos hf8 hfW hsum
    have hopen0 : OpenState (scm_open f true).1 := by
      rw [scm_open_true_fst]
      exact ⟨rfl, rfl, hfW⟩
    obtain ⟨m1, hall, hsz, hframe⟩ := allocAll_fits sizes (scm_open f true).1
      (scm_open f true).2 hopen0 hpos
      (by rw [scm_open_true_fst]
          show 0 + chainLen sizes ≤ f.size
          omega)
    rw [scm_open_true_fst] at hall
    refine ⟨⟨VIRT_ADDR + INT_SIZE, VIRT_ADDR, f.size, chainLen sizes⟩, m1, ?_, ?_, ?_⟩
    · rw [scm_open_true_fst]
      simpa using hall
    · show chainLen sizes = f.size - INT_SIZE
      exact hsum
    · intro t ht htW
      apply scm_malloc_eq_fail
      have htW2 : chainLen sizes + t + METADATA_SIZE < sizeTMod := htW
      have hMS : METADATA_SIZE = 16 := rfl
      have hI : INT_SIZE = 8 := rfl
      show (chainLen sizes + t + METADATA_SIZE) % sizeTMod > f.size
      rw [Nat.mod_eq_of_lt (by omega)]
      omega

/-- Claim C3, counterexample to the original statement: on a fresh 100-byte
store, an allocation of size `2^64 - 16` makes `utilized + size +
blockHeaderSize` wrap to 0 in `size_t`, so the capacity guard passes and
`scm_malloc` returns a non-null address even though the remaining capacity
(100) is far below `s + blockHeaderSize`. -/
theorem C3_capacity_check_counterexample :
    scm_capacity (some demoScm) - scm_utilized (some demoScm)
      < (2 ^ 64 - 16) + METADATA_SIZE ∧
    (scm_malloc demoScm demoMem (2 ^ 64 - 16)).2.2.isSome = true :=
  ⟨by decide, by decide⟩

/-- Claim C3, witness: instantiated on a fresh 100-byte store with a
200-byte request (which must fail and change nothing). -/
theorem C3_capacity_check_witness :
    ((scm_malloc demoScm demoMem 200 = (demoScm, demoMem, none)) ↔
      demoScm.capacity - demoScm.utilized < 200 + METADATA_SIZE) ∧
    (∀ (f : File) (sizes : List Nat), (∀ t ∈ sizes, 0 < t) →
      INT_SIZE ≤ f.size → f.size < sizeTMod →
      chainLen sizes = f.size - INT_SIZE →
      ∃ scm1 m1, allocAll (scm_open f true).1 (scm_open f true).2 sizes
          = some (scm1, m1, payAddrs (scm_open f true).1.base sizes) ∧
        scm1.utilized = f.size - INT_SIZE ∧
        (∀ t, 0 < t → scm1.utilized + t + METADATA_SIZE < sizeTMod →
          scm_malloc scm1 m1 t = (scm1, m1, none))) :=
  C3_capacity_check demoScm demoMem 200 (by decide) (by decide) (by decide)
    (by decide)

/-- Publishing a utilization below `2^31` to the Arena Header round-trips
through the 4-byte `int` field. -/
theorem headerUtil_writeLE (m : Mem) (u : Nat) (hu : u < 2 ^ 31) :
    headerUtil (writeLE m (VIRT_ADDR + 4) 4 u) = u := by
  simp only [headerUtil]
  rw [readLE_writeLE, pow256_4, Nat.mod_eq_of_lt (by omega)]
  unfold intToSizeT
  rw [Nat.mod_eq_of_lt (by omega), if_pos (by omega)]

/-- Claim C4 (amended): after a successful `scm_malloc` or any `scm_strdup`
whose resulting utilization is below `2^31` (the range the Arena Header's
4-byte `int` counter can round-trip), the persisted utilization equals the
handle's cached one; `scm_free` preserves that equality (it performs no
write-back).  (The original claim, for all utilizations up to the capacity,
is refuted by `C4_header_cache_counterexample`: the header stores the
counter as an `int`, truncating the `size_t` cache.) -/
theorem C4_header_cache_sync (scm : Scm) (m : Mem) (hopen : OpenState scm) :
    (∀ s, (scm_malloc scm m s).2.2.isSome →
      (scm_malloc scm m s).1.utilized < 2 ^ 31 →
      headerUtil (scm_malloc scm m s).2.1 = (scm_malloc scm m s).1.utilized) ∧
    (∀ s : List Nat, (scm_strdup scm m s).1.utilized < 2 ^ 31 →
      headerUtil (scm_strdup scm m s).2.1 = (scm_strdup scm m s).1.utilized) ∧
    (∀ ptr, headerUtil m = scm.utilized →
      headerUtil (scm_free scm m ptr) = scm.utilized) := by
  obtain ⟨hm, hbase, hcapW⟩ := hopen
  have hI : INT_SIZE = 8 := rfl
  have hMS : METADATA_SIZE = 16 := rfl
  have hb := OpenState_base_ne scm ⟨hm, hbase, hcapW⟩
  refine ⟨?_, ?_, ?_⟩
  · intro s hsome hlt
    by_cases h1 : scm.base = MAP_FAILED ∨ s = 0
    · rw [scm_malloc_eq_fail1 scm m s h1] at hsome
      simp at hsome
    · by_cases h2 : (scm.utilized + s + METADATA_SIZE) % sizeTMod > scm.capacity
      · rw [scm_malloc_eq_fail scm m s h2] at hsome
        simp at hsome
      · rw [scm_malloc_eq_succ scm m s h1 h2] at hlt ⊢
        have hlt2 : (scm.utilized + s + METADATA_SIZE) % sizeTMod < 2 ^ 31 := hlt
        rw [hm]
        exact headerUtil_writeLE _ _ hlt2
  · intro s hlt
    simp only [scm_strdup] at hlt ⊢
    rw [if_neg hb] at hlt ⊢
    rw [hm]
    exact headerUtil_writeLE _ _ hlt
  · intro ptr hpre
    simp only [scm_free]
    by_cases hf : free_scan m (scm_mbase (some scm) + scm.utilized) ptr
        (scm_mbase (some scm)) = true
    · rw [if_pos hf]
      have hmem := (free_scan_mem m _ ptr _).mp hf
      have hrange := scanAddrs_mem_range m _ _ ptr hmem
      by_cases hu : scm.utilized = 0
      · exfalso
        rw [hu] at hrange
        omega
      · have hmb : scm_mbase (some scm) = scm.base + 16 := by
          simp [scm_mbase, hu]
        rw [hmb] at hrange
        have hptr : scm.base + 16 ≤ ptr := hrange.1
        rw [← hpre]
        simp only [headerUtil]
        refine congrArg intToSizeT (readLE_congr 4 _ _ _ ?_)
        intro i hi
        exact writeLE_frame _ _ _ _ _ (by omega)
    · rw [if_neg hf]
      exact hpre

/-- Claim C4, counterexample to the original statement: on a fresh store of
capacity `2^32 + 16`, a successful allocation of `2^32` bytes drives the
cached utilization to `2^32 + 16` (well within capacity), but the Arena
Header's `int` field stores `(2^32 + 16) mod 2^32 = 16`; the persisted and
cached counters disagree right after the mutating call returns. -/
theorem C4_header_cache_counterexample :
    (scm_malloc (scm_open ⟨2 ^ 32 + 16, emptyMem⟩ true).1
        (scm_open ⟨2 ^ 32 + 16, emptyMem⟩ true).2 (2 ^ 32)).2.2.isSome = true ∧
    (scm_malloc (scm_open ⟨2 ^ 32 + 16, emptyMem⟩ true).1
        (scm_open ⟨2 ^ 32 + 16, emptyMem⟩ true).2 (2 ^ 32)).1.utilized
      = 2 ^ 32 + 16 ∧
    headerUtil (scm_malloc (scm_open ⟨2 ^ 32 + 16, emptyMem⟩ true).1
        (scm_open ⟨2 ^ 32 + 16, emptyMem⟩ true).2 (2 ^ 32)).2.1 = 16 :=
  ⟨by decide, by decide, by decide⟩

/-- Claim C4, witness: instantiated on a fresh 100-byte store. -/
theorem C4_header_cache_sync_witness :
    (∀ s, (scm_malloc demoScm demoMem s).2.2.isSome →
      (scm_malloc demoScm demoMem s).1.utilized < 2 ^ 31 →
      headerUtil (scm_malloc demoScm demoMem s).2.1
        = (scm_malloc demoScm demoMem s).1.utilized) ∧
    (∀ s : List Nat, (scm_strdup demoScm demoMem s).1.utilized < 2 ^ 31 →
      headerUtil (scm_strdup demoScm demoMem s).2.1
        = (scm_strdup demoScm demoMem s).1.utilized) ∧
    (∀ ptr, headerUtil demoMem = demoScm.utilized →
      headerUtil (scm_free demoScm demoMem ptr) = demoScm.utilized) :=
  C4_header_cache_sync demoScm demoMem (by decide)

/-- Claim C5: on an open handle with room for the copy, `scm_strdup` behaves
exactly like `scm_malloc (length + 1)` followed by copying the bytes and the
terminator into the new payload — same handle update, same returned address,
and the final memory is the `scm_malloc` memory plus the copy — and reading
the returned address back as a C string yields the input; moreover
`scm_strdup` performs no capacity pre-check: it returns a non-null address
for every handle whose base is valid. -/
theorem C5_strdup_equiv (scm : Scm) (m : Mem) (s : List Nat)
    (hopen : OpenState scm) (hstr : validStr s)
    (hfit : scm.utilized + (s.length + 1) + METADATA_SIZE ≤ scm.capacity) :
    (scm_strdup scm m s).1 = (scm_malloc scm m (s.length + 1)).1 ∧
    (scm_strdup scm m s).2.2 = (scm_malloc scm m (s.length + 1)).2.2 ∧
    (scm_strdup scm m s).2.1 =
      writeBytes (scm_malloc scm m (s.length + 1)).2.1
        (scm.base + scm.utilized + METADATA_SIZE) (s ++ [0]) ∧
    readCStr (scm_strdup scm m s).2.1
      (scm.base + scm.utilized + METADATA_SIZE) (s.length + 1) = s ∧
    (∀ (scm2 : Scm) (m2 : Mem), scm2.base ≠ MAP_FAILED →
      ((scm_strdup scm2 m2 s).2.2).isSome) := by
  obtain ⟨hm, hbase, hcapW⟩ := hopen
  have hI : INT_SIZE = 8 := rfl
  have hMS : METADATA_SIZE = 16 := rfl
  have hb := OpenState_base_ne scm ⟨hm, hbase, hcapW⟩
  have hmalloc := scm_malloc_eq_of_fits scm m (s.length + 1) hb (by omega) hfit hcapW
  have hstrdup := scm_strdup_eq scm m s hb (by omega)
  have hcstr : readCStr
      (writeLE
        (writeBytes
          (writeLE (writeLE m (scm.base + scm.utilized) 8 1)
            (scm.base + scm.utilized + 8) 8 (s.length + 1))
          (scm.base + scm.utilized + METADATA_SIZE) (s ++ [0]))
        (scm.mapped + 4) 4 (scm.utilized + (s.length + 1) + METADATA_SIZE))
      (scm.base + scm.utilized + METADATA_SIZE) (s.length + 1) = s := by
    apply readCStr_of_bytes s _ _ hstr
    intro i hi
    rw [writeLE_frame _ _ _ _ _ (by omega)]
    rw [writeBytes_apply]
    rw [if_pos (by simp; omega)]
    rw [show scm.base + scm.utilized + METADATA_SIZE + i
        - (scm.base + scm.utilized + METADATA_SIZE) = i by omega]
    rcases Nat.lt_or_ge i s.length with hlt | hge
    · rw [List.getD_append _ _ _ _ hlt]
      have hmem : s.getD i 0 ∈ s := by
        rw [List.getD_eq_getElem s 0 hlt]
        exact List.getElem_mem hlt
      have := hstr _ hmem
      omega
    · have hieq : i = s.length := by omega
      subst hieq
      rw [List.getD_append_right _ _ _ _ (le_refl _)]
      simp
  refine ⟨?_, ?_, ?_, ?_, ?_⟩
  · rw [hmalloc, hstrdup]
  · rw [hmalloc, hstrdup]
  · rw [hmalloc, hstrdup]
    exact (writeBytes_writeLE_comm _ _ _ _ _ _ (Or.inr (by omega))).symm
  · rw [hstrdup]
    exact hcstr
  · intro scm2 m2 hb2
    simp only [scm_strdup]
    rw [if_neg hb2]
    simp

/-- Claim C5, witness: duplicating the string `"abc"` on a fresh 100-byte
store. -/
theorem C5_strdup_equiv_witness :
    (scm_strdup demoScm demoMem [97, 98, 99]).1
      = (scm_malloc demoScm demoMem 4).1 ∧
    (scm_strdup demoScm demoMem [97, 98, 99]).2.2
      = (scm_malloc demoScm demoMem 4).2.2 ∧
    (scm_strdup demoScm demoMem [97, 98, 99]).2.1 =
      writeBytes (scm_malloc demoScm demoMem 4).2.1
        (demoScm.base + demoScm.utilized + METADATA_SIZE) ([97, 98, 99] ++ [0]) ∧
    readCStr (scm_strdup demoScm demoMem [97, 98, 99]).2.1
      (demoScm.base + demoScm.utilized + METADATA_SIZE) 4 = [97, 98, 99] ∧
    (∀ (scm2 : Scm) (m2 : Mem), scm2.base ≠ MAP_FAILED →
      ((scm_strdup scm2 m2 [97, 98, 99]).2.2).isSome) :=
  C5_strdup_equiv demoScm demoMem [97, 98, 99] (by decide) (by decide) (by decide)

/-- When the chain's size fields are in memory, the scan visits exactly the
chain's payload-start addresses. -/
theorem scanAddrs_chain : ∀ (sizes : List Nat) (m : Mem) (b : Nat),
    SizesOk m b sizes →
    scanAddrs m (b + METADATA_SIZE + chainLen sizes) (b + METADATA_SIZE)
      = payAddrs b sizes := by
  intro sizes
  induction sizes with
  | nil =>
    intro m b _
    rw [scanAddrs_eq, if_neg (by simp [chainLen])]
    rfl
  | cons s rest ih =>
    intro m b h
    have hMS : METADATA_SIZE = 16 := rfl
    have hcl : chainLen (s :: rest) = METADATA_SIZE + s + chainLen rest := rfl
    rw [scanAddrs_eq, if_pos (by omega)]
    have hsub : b + METADATA_SIZE - 8 = b + 8 := by omega
    rw [hsub, h.1]
    simp only [payAddrs]
    congr 1
    have e1 : b + METADATA_SIZE + chainLen (s :: rest)
        = b + METADATA_SIZE + s + METADATA_SIZE + chainLen rest := by
      rw [hcl]; omega
    rw [e1]
    exact ih m (b + METADATA_SIZE + s) h.2

/-- Every element of `payAddrs b sizes` lies at or above `b + METADATA_SIZE`. -/
theorem payAddrs_mem_ge : ∀ (sizes : List Nat) (b q : Nat),
    q ∈ payAddrs b sizes → b + METADATA_SIZE ≤ q := by
  intro sizes
  induction sizes with
  | nil => intro b q hq; simp [payAddrs] at hq
  | cons s rest ih =>
    intro b q hq
    rcases List.mem_cons.mp hq with hq | hq
    · omega
    · have := ih (b + METADATA_SIZE + s) q hq
      omega

/-- `payAddrs` has one address per allocation. -/
theorem payAddrs_length : ∀ (sizes : List Nat) (b : Nat),
    (payAddrs b sizes).length = sizes.length := by
  intro sizes
  induction sizes with
  | nil => intro b; rfl
  | cons s rest ih => intro b; simp [payAddrs, ih]

/-- `SizesOk` only looks at bytes from `b + 8` upward. -/
theorem SizesOk_congr : ∀ (sizes : List Nat) (b : Nat) (m m2 : Mem),
    SizesOk m b sizes → (∀ x, b + 8 ≤ x → m2 x = m x) → SizesOk m2 b sizes := by
  intro sizes
  induction sizes with
  | nil => intro b m m2 _ _; trivial
  | cons s rest ih =>
    intro b m m2 h hagree
    have hMS : METADATA_SIZE = 16 := rfl
    refine ⟨?_, ?_⟩
    · rw [readLE_congr 8 m2 m (b + 8) (fun i hi => hagree _ (by omega))]
      exact h.1
    · exact ih (b + METADATA_SIZE + s) m m2 h.2 (fun x hx => hagree x (by omega))

/-- Clearing the in-use word of any block of the chain leaves every size
field intact. -/
theorem SizesOk_write_flag : ∀ (sizes : List Nat) (b : Nat) (m : Mem) (p : Nat),
    SizesOk m b sizes → p ∈ payAddrs b sizes →
    SizesOk (writeLE m (p - 16) 8 0) b sizes := by
  intro sizes
  induction sizes with
  | nil => intro b m p _ hp; simp [payAddrs] at hp
  | cons s rest ih =>
    intro b m p h hp
    have hMS : METADATA_SIZE = 16 := rfl
    rcases List.mem_cons.mp hp with hp | hp
    · exact SizesOk_congr (s :: rest) b m _ h
        (fun x hx => writeLE_frame _ _ _ _ _ (Or.inr (by omega)))
    · have hge := payAddrs_mem_ge rest (b + METADATA_SIZE + s) p hp
      refine ⟨?_, ?_⟩
      · rw [readLE_congr 8 _ m (b + 8)
          (fun i hi => writeLE_frame _ _ _ _ _ (Or.inl (by omega)))]
        exact h.1
      · exact ih (b + METADATA_SIZE + s) m p h.2 hp

/-- Claim C6: after any fitting run of allocations on a fresh store,
`scm_free` on one of the returned addresses clears exactly that block's
in-use word: the resulting memory is the old one with the 8 bytes at
`ptr - 16` zeroed, every other byte — neighboring block headers and
payloads, and the Arena Header (which is never written back) — is
untouched, and a second `scm_free` on the same address changes nothing
further.  The handle, hence the utilization, is unchanged by construction
(`scm_free` returns only the memory). -/
theorem C6_free_clears_only_flag (f : File) (sizes : List Nat) (i : Nat)
    (hpos : ∀ t ∈ sizes, 0 < t) (hcap : chainLen sizes ≤ f.size)
    (hW : f.size < sizeTMod) (hi : i < sizes.length) :
    ∃ scm1 m1, allocAll (scm_open f true).1 (scm_open f true).2 sizes
        = some (scm1, m1, payAddrs (VIRT_ADDR + INT_SIZE) sizes) ∧
      scm1.utilized = chainLen sizes ∧
      (∀ ptr, ptr = (payAddrs (VIRT_ADDR + INT_SIZE) sizes).getD i 0 →
        scm_free scm1 m1 ptr = writeLE m1 (ptr - 16) 8 0 ∧
        readLE (scm_free scm1 m1 ptr) (ptr - 16) 8 = 0 ∧
        (∀ x, x < ptr - 16 ∨ ptr - 8 ≤ x → scm_free scm1 m1 ptr x = m1 x) ∧
        scm_free scm1 (scm_free scm1 m1 ptr) ptr = scm_free scm1 m1 ptr) := by
  have hMS : METADATA_SIZE = 16 := rfl
  have hI : INT_SIZE = 8 := rfl
  have hopen0 : OpenState (scm_open f true).1 := by
    rw [scm_open_true_fst]
    exact ⟨rfl, rfl, hW⟩
  obtain ⟨m1, hall, hsz, hframe⟩ := allocAll_fits sizes (scm_open f true).1
    (scm_open f true).2 hopen0 hpos
    (by rw [scm_open_true_fst]
        show 0 + chainLen sizes ≤ f.size
        omega)
  rw [scm_open_true_fst] at hall hsz
  have hsz2 : SizesOk m1 (VIRT_ADDR + INT_SIZE + 0) sizes := hsz
  rw [Nat.add_zero] at hsz2
  have hne : sizes ≠ [] := by
    intro he
    rw [he] at hi
    simp at hi
  have hclpos : 0 < chainLen sizes := by
    cases sizes with
    | nil => exact absurd rfl hne
    | cons s rest =>
      show 0 < METADATA_SIZE + s + chainLen rest
      omega
  refine ⟨⟨VIRT_ADDR + INT_SIZE, VIRT_ADDR, f.size, chainLen sizes⟩, m1, ?_, rfl, ?_⟩
  · rw [scm_open_true_fst]
    simpa using hall
  · intro ptr hptr
    have hpmem : ptr ∈ payAddrs (VIRT_ADDR + INT_SIZE) sizes := by
      rw [hptr, List.getD_eq_getElem _ 0 (by rw [payAddrs_length]; omega)]
      exact List.getElem_mem _
    have hge := payAddrs_mem_ge sizes (VIRT_ADDR + INT_SIZE) ptr hpmem
    have hmb : scm_mbase (some ⟨VIRT_ADDR + INT_SIZE, VIRT_ADDR, f.size, chainLen sizes⟩)
        = VIRT_ADDR + INT_SIZE + METADATA_SIZE := by
      simp only [scm_mbase]
      rw [if_pos (by show chainLen sizes ≠ 0; omega)]
      omega
    have hscan1 : free_scan m1
        (scm_mbase (some ⟨VIRT_ADDR + INT_SIZE, VIRT_ADDR, f.size, chainLen sizes⟩)
          + chainLen sizes) ptr
        (scm_mbase (some ⟨VIRT_ADDR + INT_SIZE, VIRT_ADDR, f.size, chainLen sizes⟩))
        = true := by
      rw [hmb, free_scan_mem, scanAddrs_chain sizes m1 (VIRT_ADDR + INT_SIZE) hsz2]
      exact hpmem
    have hfree1 : scm_free ⟨VIRT_ADDR + INT_SIZE, VIRT_ADDR, f.size, chainLen sizes⟩
        m1 ptr = writeLE m1 (ptr - 16) 8 0 := by
      simp only [scm_free]
      rw [if_pos hscan1]
    have hsz3 : SizesOk (writeLE m1 (ptr - 16) 8 0) (VIRT_ADDR + INT_SIZE) sizes :=
      SizesOk_write_flag sizes _ m1 ptr hsz2 hpmem
    refine ⟨hfree1, ?_, ?_, ?_⟩
    · rw [hfree1, readLE_writeLE]
      simp
    · intro x hx
      rw [hfree1, writeLE_frame _ _ _ _ _ (by omega)]
    · rw [hfree1]
      have hscan2 : free_scan (writeLE m1 (ptr - 16) 8 0)
          (scm_mbase (some ⟨VIRT_ADDR + INT_SIZE, VIRT_ADDR, f.size, chainLen sizes⟩)
            + chainLen sizes) ptr
          (scm_mbase (some ⟨VIRT_ADDR + INT_SIZE, VIRT_ADDR, f.size, chainLen sizes⟩))
          = true := by
        rw [hmb, free_scan_mem,
          scanAddrs_chain sizes _ (VIRT_ADDR + INT_SIZE) hsz3]
        exact hpmem
      simp only [scm_free]
      rw [if_pos hscan2, writeLE_writeLE]

/-- Claim C6, witness: two allocations of 5 and 7 bytes on a fresh 100-byte
store, then freeing the second one. -/
theorem C6_free_clears_only_flag_witness :
    ∃ scm1 m1, allocAll (scm_open demoF true).1 (scm_open demoF true).2 [5, 7]
        = some (scm1, m1, payAddrs (VIRT_ADDR + INT_SIZE) [5, 7]) ∧
      scm1.utilized = chainLen [5, 7] ∧
      (∀ ptr, ptr = (payAddrs (VIRT_ADDR + INT_SIZE) [5, 7]).getD 1 0 →
        scm_free scm1 m1 ptr = writeLE m1 (ptr - 16) 8 0 ∧
        readLE (scm_free scm1 m1 ptr) (ptr - 16) 8 = 0 ∧
        (∀ x, x < ptr - 16 ∨ ptr - 8 ≤ x → scm_free scm1 m1 ptr x = m1 x) ∧
        scm_free scm1 (scm_free scm1 m1 ptr) ptr = scm_free scm1 m1 ptr) :=
  C6_free_clears_only_flag demoF [5, 7] 1 (by decide) (by decide) (by decide)
    (by decide)

/-- With strictly positive payload sizes, no chain payload address is one
byte after another chain payload address. -/
theorem payAddrs_succ_not_mem : ∀ (sizes : List Nat) (b p : Nat),
    (∀ t ∈ sizes, 0 < t) → p ∈ payAddrs b sizes → p + 1 ∉ payAddrs b sizes := by
  intro sizes
  induction sizes with
  | nil => intro b p _ hp; simp [payAddrs] at hp
  | cons s rest ih =>
    intro b p hpos hp hq
    have hMS : METADATA_SIZE = 16 := rfl
    have hs : 0 < s := hpos s (by simp)
    rcases List.mem_cons.mp hp with hp | hp
    · rcases List.mem_cons.mp hq with hq | hq
      · omega
      · have := payAddrs_mem_ge rest (b + METADATA_SIZE + s) (p + 1) hq
        omega
    · rcases List.mem_cons.mp hq with hq | hq
      · have := payAddrs_mem_ge rest (b + METADATA_SIZE + s) p hp
        omega
      · exact ih (b + METADATA_SIZE + s) p
          (fun t ht => hpos t (by simp [ht])) hp hq

/-- `scm_free` does nothing when the scan does not visit the address. -/
theorem scm_free_not_found (scm : Scm) (m : Mem) (ptr : Nat)
    (h : ptr ∉ scanAddrs m (scm_mbase (some scm) + scm.utilized)
      (scm_mbase (some scm))) :
    scm_free scm m ptr = m := by
  simp only [scm_free]
  rw [if_neg (fun hf => h ((free_scan_mem m _ ptr _).mp hf))]

/-- Claim C7 (amended): on a valid open handle, `scm_free` with any address
the scan does not visit — in particular the handle's own `base` pointer, any
address at or past the end of utilized space, and any address one byte after
a chain payload start — is a silent no-op that changes no state.  (The
original claim also asserted this for a null handle; that case is refuted by
`C7_free_null_handle_counterexample`: line 240 reads `scm->utilized` through
the null handle before the scan can terminate.) -/
theorem C7_free_unmatched_noop (scm : Scm) (m : Mem) (ptr : Nat)
    (hopen : OpenState scm)
    (hnot : ptr ∉ scanAddrs m (scm_mbase (some scm) + scm.utilized)
      (scm_mbase (some scm))) :
    scm_free scm m ptr = m ∧
    scm_free scm m scm.base = m ∧
    (∀ q, scm_mbase (some scm) + scm.utilized ≤ q → scm_free scm m q = m) ∧
    (∀ (f : File) (sizes : List Nat) (j : Nat), (∀ t ∈ sizes, 0 < t) →
      chainLen sizes ≤ f.size → f.size < sizeTMod → j < sizes.length →
      ∃ scm1 m1, allocAll (scm_open f true).1 (scm_open f true).2 sizes
          = some (scm1, m1, payAddrs (VIRT_ADDR + INT_SIZE) sizes) ∧
        scm_free scm1 m1 ((payAddrs (VIRT_ADDR + INT_SIZE) sizes).getD j 0 + 1)
          = m1) := by
  have hMS : METADATA_SIZE = 16 := rfl
  have hI : INT_SIZE = 8 := rfl
  refine ⟨scm_free_not_found scm m ptr hnot, ?_, ?_, ?_⟩
  · apply scm_free_not_found
    intro hmem
    have hrange := scanAddrs_mem_range m _ _ _ hmem
    by_cases hu : scm.utilized = 0
    · rw [show scm_mbase (some scm) = scm.base from by simp [scm_mbase, hu], hu]
        at hrange
      omega
    · rw [show scm_mbase (some scm) = scm.base + 16 from by simp [scm_mbase, hu]]
        at hrange
      omega
  · intro q hq
    apply scm_free_not_found
    intro hmem
    have hrange := scanAddrs_mem_range m _ _ _ hmem
    omega
  · intro f sizes j hpos hcap hW hj
    have hopen0 : OpenState (scm_open f true).1 := by
      rw [scm_open_true_fst]
      exact ⟨rfl, rfl, hW⟩
    obtain ⟨m1, hall, hsz, hframe⟩ := allocAll_fits sizes (scm_open f true).1
      (scm_open f true).2 hopen0 hpos
      (by rw [scm_open_true_fst]
          show 0 + chainLen sizes ≤ f.size
          omega)
    rw [scm_open_true_fst] at hall hsz
    have hsz2 : SizesOk m1 (VIRT_ADDR + INT_SIZE + 0) sizes := hsz
    rw [Nat.add_zero] at hsz2
    have hne : sizes ≠ [] := by
      intro he
      rw [he] at hj
      simp at hj
    have hclpos : 0 < chainLen sizes := by
      cases sizes with
      | nil => exact absurd rfl hne
      | cons s rest =>
        show 0 < METADATA_SIZE + s + chainLen rest
        omega
    refine ⟨⟨VIRT_ADDR + INT_SIZE, VIRT_ADDR, f.size, chainLen sizes⟩, m1, ?_, ?_⟩
    · rw [scm_open_true_fst]
      simpa using hall
    · have hpmem : (payAddrs (VIRT_ADDR + INT_SIZE) sizes).getD j 0
          ∈ payAddrs (VIRT_ADDR + INT_SIZE) sizes := by
        rw [List.getD_eq_getElem _ 0 (by rw [payAddrs_length]; omega)]
        exact List.getElem_mem _
      apply scm_free_not_found
      have hmb : scm_mbase
          (some ⟨VIRT_ADDR + INT_SIZE, VIRT_ADDR, f.size, chainLen sizes⟩)
          = VIRT_ADDR + INT_SIZE + METADATA_SIZE := by
        simp only [scm_mbase]
        rw [if_pos (by show chainLen sizes ≠ 0; omega)]
        omega
      rw [hmb]
      show (payAddrs (VIRT_ADDR + INT_SIZE) sizes).getD j 0 + 1
        ∉ scanAddrs m1 (VIRT_ADDR + INT_SIZE + METADATA_SIZE + chainLen sizes)
          (VIRT_ADDR + INT_SIZE + METADATA_SIZE)
      rw [scanAddrs_chain sizes m1 (VIRT_ADDR + INT_SIZE) hsz2]
      exact payAddrs_succ_not_mem sizes (VIRT_ADDR + INT_SIZE) _ hpos hpmem

/-- Claim C7, counterexample to the null-handle case: `scm_free(NULL, p)` is
not a silent no-op — `scm_mbase` returns `NULL`, but the loop condition on
line 240 then dereferences the null handle for `scm->utilized` (undefined
behavior, modelled as `none`), instead of returning with the memory
unchanged. -/
theorem C7_free_null_handle_counterexample :
    scm_free_total none emptyMem 0 ≠ some emptyMem ∧
    scm_free_total none emptyMem 0 = none :=
  ⟨by simp [scm_free_total], rfl⟩

/-- Claim C7, witness: a fresh 100-byte store (utilized = 0), freeing the
arbitrary unrelated address `VIRT_ADDR + 40`. -/
theorem C7_free_unmatched_noop_witness :
    scm_free demoScm demoMem (VIRT_ADDR + 40) = demoMem ∧
    scm_free demoScm demoMem demoScm.base = demoMem ∧
    (∀ q, scm_mbase (some demoScm) + demoScm.utilized ≤ q →
      scm_free demoScm demoMem q = demoMem) ∧
    (∀ (f : File) (sizes : List Nat) (j : Nat), (∀ t ∈ sizes, 0 < t) →
      chainLen sizes ≤ f.size → f.size < sizeTMod → j < sizes.length →
      ∃ scm1 m1, allocAll (scm_open f true).1 (scm_open f true).2 sizes
          = some (scm1, m1, payAddrs (VIRT_ADDR + INT_SIZE) sizes) ∧
        scm_free scm1 m1 ((payAddrs (VIRT_ADDR + INT_SIZE) sizes).getD j 0 + 1)
          = m1) :=
  C7_free_unmatched_noop demoScm demoMem (VIRT_ADDR + 40) (by decide) (by decide)

/-- Any successful run of allocations preserves the open-handle shape, the
capacity, the Arena Header sentinel, and the agreement between the header's
4-byte utilization field and the low 32 bits of the cached utilization. -/
theorem allocAll_inv : ∀ (sizes : List Nat) (scm : Scm) (m : Mem)
    (scm1 : Scm) (m1 : Mem) (addrs : List Nat),
    allocAll scm m sizes = some (scm1, m1, addrs) →
    scm.mapped = VIRT_ADDR → scm.base = VIRT_ADDR + INT_SIZE →
    readLE m VIRT_ADDR 4 = 1 →
    readLE m (VIRT_ADDR + 4) 4 = scm.utilized % 2 ^ 32 →
    scm1.mapped = VIRT_ADDR ∧ scm1.base = VIRT_ADDR + INT_SIZE ∧
    scm1.capacity = scm.capacity ∧
    readLE m1 VIRT_ADDR 4 = 1 ∧
    readLE m1 (VIRT_ADDR + 4) 4 = scm1.utilized % 2 ^ 32 := by
  intro sizes
  induction sizes with
  | nil =>
    intro scm m scm1 m1 addrs hall hm hbase hsent hutil
    simp only [allocAll, Option.some.injEq, Prod.mk.injEq] at hall
    obtain ⟨h1, h2, _⟩ := hall
    rw [← h1, ← h2]
    exact ⟨hm, hbase, rfl, hsent, hutil⟩
  | cons s rest ih =>
    intro scm m scm1 m1 addrs hall hm hbase hsent hutil
    have hI : INT_SIZE = 8 := rfl
    have hMS : METADATA_SIZE = 16 := rfl
    simp only [allocAll] at hall
    by_cases h1 : scm.base = MAP_FAILED ∨ s = 0
    · rw [scm_malloc_eq_fail1 scm m s h1] at hall
      simp at hall
    · by_cases h2 : (scm.utilized + s + METADATA_SIZE) % sizeTMod > scm.capacity
      · rw [scm_malloc_eq_fail scm m s h2] at hall
        simp at hall
      · rw [scm_malloc_eq_succ scm m s h1 h2] at hall
        simp only at hall
        cases hrest : allocAll { scm with
            utilized := (scm.utilized + s + METADATA_SIZE) % sizeTMod }
          (writeLE (writeLE (writeLE m (scm.base + scm.utilized) 8 1)
              (scm.base + scm.utilized + 8) 8 s)
            (scm.mapped + 4) 4 ((scm.utilized + s + METADATA_SIZE) % sizeTMod))
          rest with
        | none =>
          rw [hrest] at hall
          simp at hall
        | some trip =>
          obtain ⟨scm2, m2, addrs2⟩ := trip
          rw [hrest] at hall
          simp only [Option.some.injEq, Prod.mk.injEq] at hall
          obtain ⟨he1, he2, _⟩ := hall
          have hsent1 : readLE
              (writeLE (writeLE (writeLE m (scm.base + scm.utilized) 8 1)
                  (scm.base + scm.utilized + 8) 8 s)
                (scm.mapped + 4) 4 ((scm.utilized + s + METADATA_SIZE) % sizeTMod))
              VIRT_ADDR 4 = 1 := by
            rw [readLE_congr 4 _
              (writeLE (writeLE m (scm.base + scm.utilized) 8 1)
                (scm.base + scm.utilized + 8) 8 s) VIRT_ADDR
              (fun i hi => writeLE_frame _ _ _ _ _ (by omega))]
            rw [readLE_congr 4 _ (writeLE m (scm.base + scm.utilized) 8 1)
              VIRT_ADDR (fun i hi => writeLE_frame _ _ _ _ _ (by omega))]
            rw [readLE_congr 4 _ m VIRT_ADDR
              (fun i hi => writeLE_frame _ _ _ _ _ (by omega))]
            exact hsent
          have hutil1 : readLE
              (writeLE (writeLE (writeLE m (scm.base + scm.utilized) 8 1)
                  (scm.base + scm.utilized + 8) 8 s)
                (scm.mapped + 4) 4 ((scm.utilized + s + METADATA_SIZE) % sizeTMod))
              (VIRT_ADDR + 4) 4
              = ({ scm with utilized := (scm.utilized + s + METADATA_SIZE) % sizeTMod }
                  : Scm).utilized % 2 ^ 32 := by
            rw [hm, readLE_writeLE, pow256_4]
          obtain ⟨hc1, hc2, hc3, hc4, hc5⟩ := ih _ _ _ _ _ hrest
            (by rw [hm]) (by rw [hbase]) hsent1 hutil1
          rw [← he1, ← he2]
          exact ⟨hc1, hc2, hc3, hc4, hc5⟩

/-- The two header writes of a reset leave sentinel 1 and utilization 0. -/
theorem reset_header_reads (m0 : Mem) :
    readLE (writeLE (writeLE m0 VIRT_ADDR 4 1) (VIRT_ADDR + 4) 4 0) VIRT_ADDR 4
      = 1 ∧
    readLE (writeLE (writeLE m0 VIRT_ADDR 4 1) (VIRT_ADDR + 4) 4 0)
      (VIRT_ADDR + 4) 4 = 0 := by
  constructor
  · rw [readLE_congr 4 _ (writeLE m0 VIRT_ADDR 4 1) VIRT_ADDR
      (fun i hi => writeLE_frame _ _ _ _ _ (by omega))]
    rw [readLE_writeLE, Nat.mod_eq_of_lt (by norm_num)]
  · rw [readLE_writeLE]
    simp

/-- `scm_open` without reset adopts the prior utilization when the sentinel
is valid. -/
theorem scm_open_false_adopt (f : File)
    (hsent : readLE (mapFile f) VIRT_ADDR 4 = 1) :
    scm_open f false = (⟨VIRT_ADDR + INT_SIZE, VIRT_ADDR, f.size,
      intToSizeT (readLE (mapFile f) (VIRT_ADDR + 4) 4)⟩, mapFile f) := by
  simp only [scm_open]
  rw [if_neg (by simp [hsent])]

/-- `scm_open` with an invalid sentinel reinitializes even without reset. -/
theorem scm_open_invalid (f : File) (truncate : Bool)
    (hsent : readLE (mapFile f) VIRT_ADDR 4 ≠ 1) :
    scm_open f truncate = (⟨VIRT_ADDR + INT_SIZE, VIRT_ADDR, f.size, 0⟩,
      writeLE (writeLE (mapFile f) VIRT_ADDR 4 1) (VIRT_ADDR + 4) 4 0) := by
  simp only [scm_open]
  rw [if_pos (Or.inl hsent)]

/-- Claim C2 (amended): open with reset, any sequence of successful
allocations, close, reopen without reset: the reopened store reports the
same utilization as before the close, provided that utilization is below
`2^31` (the range the header's 4-byte `int` field can round-trip; the
unrestricted claim is refuted by `C2_roundtrip_counterexample`).  Open with
reset, or with an absent/invalid sentinel, reinitializes the header to
sentinel 1 and utilization 0. -/
theorem C2_roundtrip (f : File) (sizes : List Nat) (u v : Nat)
    (hrt : roundTrip f true sizes = some (u, v)) (hu : u < 2 ^ 31)
    (hf8 : INT_SIZE ≤ f.size) :
    u = v ∧
    (scm_open f true).1.utilized = 0 ∧
    readLE (scm_open f true).2 VIRT_ADDR 4 = 1 ∧
    readLE (scm_open f true).2 (VIRT_ADDR + 4) 4 = 0 ∧
    (readLE (mapFile f) VIRT_ADDR 4 ≠ 1 →
      (scm_open f false).1.utilized = 0 ∧
      readLE (scm_open f false).2 VIRT_ADDR 4 = 1 ∧
      readLE (scm_open f false).2 (VIRT_ADDR + 4) 4 = 0) := by
  have hI : INT_SIZE = 8 := rfl
  have hsentA : readLE (scm_open f true).2 VIRT_ADDR 4 = 1 := by
    rw [scm_open_true_snd]
    exact (reset_header_reads (mapFile f)).1
  have hutilA : readLE (scm_open f true).2 (VIRT_ADDR + 4) 4 = 0 := by
    rw [scm_open_true_snd]
    exact (reset_header_reads (mapFile f)).2
  refine ⟨?_, by rw [scm_open_true_fst], hsentA, hutilA, ?_⟩
  · simp only [roundTrip] at hrt
    cases hall : allocAll (scm_open f true).1 (scm_open f true).2 sizes with
    | none =>
      rw [hall] at hrt
      simp at hrt
    | some trip =>
      obtain ⟨scm1, m1, addrs⟩ := trip
      rw [hall] at hrt
      simp only [Option.some.injEq, Prod.mk.injEq] at hrt
      obtain ⟨hru, hrv⟩ := hrt
      obtain ⟨hc1, hc2, hc3, hc4, hc5⟩ := allocAll_inv sizes _ _ _ _ _ hall
        (by rw [scm_open_true_fst]) (by rw [scm_open_true_fst]) hsentA
        (by rw [hutilA, scm_open_true_fst]; simp)
      have hcapa : scm1.capacity = f.size := by
        rw [hc3, scm_open_true_fst]
      have hagree : ∀ i, i < 8 →
          mapFile (scm_close scm1 m1) (VIRT_ADDR + i) = m1 (VIRT_ADDR + i) := by
        intro i hi
        simp only [mapFile, scm_close, hcapa, hc1]
        rw [if_pos (by omega)]
        rw [show VIRT_ADDR + i - VIRT_ADDR = i by omega]
      have hsent2 : readLE (mapFile (scm_close scm1 m1)) VIRT_ADDR 4 = 1 := by
        rw [readLE_congr 4 _ m1 VIRT_ADDR (fun i hi => hagree i (by omega))]
        exact hc4
      have hutil2 : readLE (mapFile (scm_close scm1 m1)) (VIRT_ADDR + 4) 4
          = scm1.utilized % 2 ^ 32 := by
        rw [readLE_congr 4 _ m1 (VIRT_ADDR + 4) (fun i hi => by
          have := hagree (4 + i) (by omega)
          rw [show VIRT_ADDR + 4 + i = VIRT_ADDR + (4 + i) by omega]
          exact this)]
        exact hc5
      rw [scm_open_false_adopt _ hsent2] at hrv
      simp only at hrv
      rw [hutil2] at hrv
      have humod : scm1.utilized % 2 ^ 32 = u := by
        rw [hru, Nat.mod_eq_of_lt (by omega)]
      rw [humod] at hrv
      rw [← hrv]
      unfold intToSizeT
      rw [Nat.mod_eq_of_lt (by omega), if_pos (by omega)]
  · intro hinv
    rw [scm_open_invalid f false hinv]
    exact ⟨rfl, (reset_header_reads (mapFile f)).1, (reset_header_reads (mapFile f)).2⟩

/-- Claim C2, counterexample to the unrestricted statement: on a `2^31`-byte
file, one successful allocation of `2^31 - 16` bytes drives utilization to
`2^31`; the header's `int` field stores the bit pattern `0x80000000`, which
reopening sign-extends to `2^64 - 2^31`, so the reopened store does not
report the utilization from before the close. -/
theorem C2_roundtrip_counterexample :
    roundTrip ⟨2 ^ 31, emptyMem⟩ true [2 ^ 31 - 16]
      = some (2 ^ 31, 2 ^ 64 - 2 ^ 31) ∧
    (2 ^ 31 : Nat) ≠ 2 ^ 64 - 2 ^ 31 :=
  ⟨by decide, by decide⟩

/-- Claim C2, witness: a fresh 64-byte store, one 8-byte allocation,
round-tripped through close and reopen. -/
theorem C2_roundtrip_witness :
    (24 : Nat) = 24 ∧
    (scm_open ⟨64, emptyMem⟩ true).1.utilized = 0 ∧
    readLE (scm_open ⟨64, emptyMem⟩ true).2 VIRT_ADDR 4 = 1 ∧
    readLE (scm_open ⟨64, emptyMem⟩ true).2 (VIRT_ADDR + 4) 4 = 0 ∧
    (readLE (mapFile ⟨64, emptyMem⟩) VIRT_ADDR 4 ≠ 1 →
      (scm_open ⟨64, emptyMem⟩ false).1.utilized = 0 ∧
      readLE (scm_open ⟨64, emptyMem⟩ false).2 VIRT_ADDR 4 = 1 ∧
      readLE (scm_open ⟨64, emptyMem⟩ false).2 (VIRT_ADDR + 4) 4 = 0) :=
  C2_roundtrip ⟨64, emptyMem⟩ [8] 24 24 (by decide) (by decide) (by decide)
